import Mathlib

/-!
Verification development for the Zenalyst frontend core: the incremental
SSE decode loop (`streamReconciliation` / `streamVisualization` in
`src/lib/api.ts`), the session state machine (`SessionContext.tsx`), and
the `/ask` request call sites.

Modelling conventions:
* Bytes and Unicode code points are `Nat`; strings from the source are
  lists of code points (`cps`).
* `TextDecoder('utf-8')` with `{stream: true}` is modelled per-byte by the
  WHATWG UTF-8 decoder state machine, including the default removal of a
  leading byte-order mark; a chunk is decoded by folding the per-byte step,
  so decoding carries partial-codepoint state between chunks.
* `JSON.parse` is modelled by a recursive-descent parser over code points.
  Number tokens are kept as their lexeme (no floating-point semantics),
  `\u` string escapes are not interpreted, and duplicate object keys are
  kept in order rather than last-wins; no claim in scope inspects these.
* Stateful React code is modelled by explicit state passing on a
  `SessionState` record; `fetch` outcomes are explicit arguments.
-/

/-- Code points of a Lean string literal, used to transcribe the string
literals of the source. -/
def cps (s : String) : List Nat := s.data.map Char.toNat

/-- State of the WHATWG UTF-8 decoder: the code point being accumulated,
how many continuation bytes are still needed, and the admissible range of
the next continuation byte. -/
structure Utf8State where
  codepoint : Nat
  needed : Nat
  lower : Nat
  upper : Nat
deriving DecidableEq

/-- Initial UTF-8 decoder state. -/
def utf8Init : Utf8State := ⟨0, 0, 0x80, 0xBF⟩

/-- WHATWG UTF-8 decoder step for a byte arriving in the initial state:
ASCII is emitted directly, lead bytes open a multi-byte sequence (with the
lower/upper bounds that exclude overlong and surrogate encodings), and
invalid bytes emit U+FFFD. -/
def utf8StepInit (b : Nat) : List Nat × Utf8State :=
  if b ≤ 0x7F then ([b], utf8Init)
  else if b ≤ 0xC1 then ([0xFFFD], utf8Init)
  else if b ≤ 0xDF then ([], ⟨b - 0xC0, 1, 0x80, 0xBF⟩)
  else if b ≤ 0xEF then
    ([], ⟨b - 0xE0, 2, if b = 0xE0 then 0xA0 else 0x80, if b = 0xED then 0x9F else 0xBF⟩)
  else if b ≤ 0xF4 then
    ([], ⟨b - 0xF0, 3, if b = 0xF0 then 0x90 else 0x80, if b = 0xF4 then 0x8F else 0xBF⟩)
  else ([0xFFFD], utf8Init)

/-- WHATWG UTF-8 decoder step: one input byte, yielding the emitted code
points and the next state.  On an out-of-range continuation byte the
decoder emits U+FFFD and reprocesses the byte from the initial state. -/
def utf8Step (s : Utf8State) (b : Nat) : List Nat × Utf8State :=
  if s.needed = 0 then utf8StepInit b
  else if s.lower ≤ b ∧ b ≤ s.upper then
    let cp := s.codepoint * 64 + (b - 0x80)
    if s.needed = 1 then ([cp], utf8Init)
    else ([], ⟨cp, s.needed - 1, 0x80, 0xBF⟩)
  else
    let r := utf8StepInit b
    (0xFFFD :: r.1, r.2)

/-- State of a `TextDecoder('utf-8')`: the UTF-8 machine state plus whether
the first decoded code point (the potential byte-order mark) has already
been seen. -/
structure DecoderState where
  utf8 : Utf8State
  firstDone : Bool
deriving DecidableEq

/-- Fresh `TextDecoder` state. -/
def decoderInit : DecoderState := ⟨utf8Init, false⟩

/-- One byte through the `TextDecoder`: run the UTF-8 machine, and drop a
leading U+FEFF if it is the first code point of the stream (the default
BOM handling of `TextDecoder`). -/
def decoderStep (s : DecoderState) (b : Nat) : List Nat × DecoderState :=
  let r := utf8Step s.utf8 b
  if s.firstDone then (r.1, ⟨r.2, true⟩)
  else
    match r.1 with
    | [] => ([], ⟨r.2, false⟩)
    | c :: rest => (if c = 0xFEFF then rest else c :: rest, ⟨r.2, true⟩)

/-- Model of `decoder.decode(chunk, {stream: true})`: fold the per-byte step over a
chunk, returning the decoded code points and the carried-over state. -/
def decodeChunk (s : DecoderState) : List Nat → List Nat × DecoderState
  | [] => ([], s)
  | b :: bs =>
    let r1 := decoderStep s b
    let r2 := decodeChunk r1.2 bs
    (r1.1 ++ r2.1, r2.2)

/-- UTF-8 encoding of one code point (the byte form a well-formed SSE
producer sends). -/
def utf8EncodeCp (c : Nat) : List Nat :=
  if c ≤ 0x7F then [c]
  else if c ≤ 0x7FF then [0xC0 + c / 64, 0x80 + c % 64]
  else if c ≤ 0xFFFF then [0xE0 + c / 4096, 0x80 + c / 64 % 64, 0x80 + c % 64]
  else [0xF0 + c / 262144, 0x80 + c / 4096 % 64, 0x80 + c / 64 % 64, 0x80 + c % 64]

/-- UTF-8 encoding of a sequence of code points. -/
def utf8Encode (t : List Nat) : List Nat := (t.map utf8EncodeCp).flatten

/-- A Unicode scalar value (encodable in UTF-8: not a surrogate, below
0x110000). -/
def ValidCp (c : Nat) : Prop := c < 0xD800 ∨ (0xE000 ≤ c ∧ c ≤ 0x10FFFF)

instance : DecidablePred ValidCp := fun _ => by unfold ValidCp; infer_instance

/-- A code point that may appear inside one SSE line of the model: a
scalar value that is neither the `\n` delimiter nor U+FEFF (the latter
excluded so that decoding is insensitive to the decoder's one-shot BOM
removal). -/
def LineCp (c : Nat) : Prop := ValidCp c ∧ c ≠ 10 ∧ c ≠ 0xFEFF

instance : DecidablePred LineCp := fun _ => by unfold LineCp; infer_instance

/-- All code points of a line are admissible (`LineCp`). -/
def ValidLine (l : List Nat) : Prop := ∀ c ∈ l, LineCp c

instance : DecidablePred ValidLine := fun _ => by unfold ValidLine; infer_instance

/-! ### JSON values and `JSON.parse` -/

/-- JSON values as produced by `JSON.parse`.  Number tokens keep their
lexeme; object fields keep source order. -/
inductive Json where
  | null
  | bool (b : Bool)
  | num (lexeme : List Nat)
  | str (chars : List Nat)
  | arr (items : List Json)
  | obj (fields : List (List Nat × Json))

/-- Skip JSON whitespace (space, tab, line feed, carriage return). -/
def skipWs : List Nat → List Nat
  | c :: rest => if c = 32 ∨ c = 9 ∨ c = 10 ∨ c = 13 then skipWs rest else c :: rest
  | [] => []

/-- Parse the body of a JSON string after the opening quote; returns the
content and the input after the closing quote.  Raw control characters are
rejected; the simple escapes are interpreted; `\u` escapes are not
supported by the model. -/
def parseStringBody : Nat → List Nat → Option (List Nat × List Nat)
  | 0, _ => none
  | _ + 1, [] => none
  | fuel + 1, c :: rest =>
    if c = 34 then some ([], rest)
    else if c = 92 then
      match rest with
      | [] => none
      | e :: rest2 =>
        let esc : Option Nat :=
          if e = 34 then some 34 else if e = 92 then some 92
          else if e = 47 then some 47 else if e = 98 then some 8
          else if e = 102 then some 12 else if e = 110 then some 10
          else if e = 114 then some 13 else if e = 116 then some 9
          else none
        match esc with
        | some ch =>
          match parseStringBody fuel rest2 with
          | some (s, r) => some (ch :: s, r)
          | none => none
        | none => none
    else if c < 32 then none
    else
      match parseStringBody fuel rest with
      | some (s, r) => some (c :: s, r)
      | none => none

/-- Is `c` an ASCII digit? -/
def isDigit (c : Nat) : Bool := 48 ≤ c && c ≤ 57

/-- Parse a JSON number token, returning its lexeme and the rest of the
input. -/
def parseNumberTok (s : List Nat) : Option (List Nat × List Nat) :=
  let (sign, s1) := match s with | 45 :: r => ([45], r) | _ => (([] : List Nat), s)
  let ds := s1.takeWhile isDigit
  let s2 := s1.dropWhile isDigit
  if ds.isEmpty then none
  else if ds.length > 1 ∧ ds.headD 0 = 48 then none
  else
    let (frac, s3) :=
      match s2 with
      | 46 :: r =>
        let fs := r.takeWhile isDigit
        if fs.isEmpty then (none, s2) else (some (46 :: fs), r.dropWhile isDigit)
      | _ => (none, s2)
    match frac, s3 with
    | none, 46 :: _ => none
    | _, _ =>
      let (expo, s4) :=
        match s3 with
        | e :: r =>
          if e = 101 ∨ e = 69 then
            let (es, r2) := match r with
              | 43 :: r2 => ([(43 : Nat)], r2)
              | 45 :: r2 => ([(45 : Nat)], r2)
              | _ => ([], r)
            let xs := r2.takeWhile isDigit
            if xs.isEmpty then (none, s3) else (some (e :: (es ++ xs)), r2.dropWhile isDigit)
          else (none, s3)
        | [] => (none, s3)
      match expo, s3 with
      | none, e :: _ =>
        if e = 101 ∨ e = 69 then none
        else some (sign ++ ds ++ (frac.getD []), s3)
      | none, [] => some (sign ++ ds ++ (frac.getD []), s3)
      | some ex, _ => some (sign ++ ds ++ (frac.getD []) ++ ex, s4)

/-- Parse the items of a JSON array after the first item position, given a
parser `pv` for one value; consumes through the closing bracket. -/
def parseArrItems (pv : List Nat → Option (Json × List Nat)) :
    Nat → List Nat → Option (List Json × List Nat)
  | 0, _ => none
  | fuel + 1, s =>
    match pv s with
    | none => none
    | some (v, r) =>
      match skipWs r with
      | 44 :: r2 =>
        match parseArrItems pv fuel r2 with
        | some (vs, rr) => some (v :: vs, rr)
        | none => none
      | 93 :: r2 => some ([v], r2)
      | _ => none

/-- Parse the members of a JSON object starting at a key position, given a
parser `pv` for one value; consumes through the closing brace. -/
def parseObjItems (pv : List Nat → Option (Json × List Nat)) :
    Nat → List Nat → Option (List (List Nat × Json) × List Nat)
  | 0, _ => none
  | fuel + 1, s =>
    match skipWs s with
    | 34 :: r =>
      match parseStringBody (r.length + 1) r with
      | none => none
      | some (k, r2) =>
        match skipWs r2 with
        | 58 :: r3 =>
          match pv r3 with
          | none => none
          | some (v, r4) =>
            match skipWs r4 with
            | 44 :: r5 =>
              match parseObjItems pv fuel r5 with
              | some (fs, rr) => some ((k, v) :: fs, rr)
              | none => none
            | 125 :: r5 => some ([(k, v)], r5)
            | _ => none
        | _ => none
    | _ => none

/-- Parse one JSON value (with leading whitespace), returning it and the
rest of the input. -/
def parseVal : Nat → List Nat → Option (Json × List Nat)
  | 0, _ => none
  | fuel + 1, s =>
    match skipWs s with
    | [] => none
    | c :: r =>
      if c = 34 then
        match parseStringBody (r.length + 1) r with
        | some (str, rr) => some (.str str, rr)
        | none => none
      else if c = 123 then
        match skipWs r with
        | 125 :: r2 => some (.obj [], r2)
        | _ =>
          match parseObjItems (parseVal fuel) fuel r with
          | some (fs, rr) => some (.obj fs, rr)
          | none => none
      else if c = 91 then
        match skipWs r with
        | 93 :: r2 => some (.arr [], r2)
        | _ =>
          match parseArrItems (parseVal fuel) fuel r with
          | some (vs, rr) => some (.arr vs, rr)
          | none => none
      else if c = 116 then
        match r with
        | 114 :: 117 :: 101 :: rr => some (.bool true, rr)
        | _ => none
      else if c = 102 then
        match r with
        | 97 :: 108 :: 115 :: 101 :: rr => some (.bool false, rr)
        | _ => none
      else if c = 110 then
        match r with
        | 117 :: 108 :: 108 :: rr => some (.null, rr)
        | _ => none
      else
        match parseNumberTok (c :: r) with
        | some (lx, rr) => some (.num lx, rr)
        | none => none

/-- Model of `JSON.parse`: parse one value and require that only whitespace
remains. -/
def parseJson (s : List Nat) : Option Json :=
  match parseVal (s.length + 1) s with
  | some (v, r) => if skipWs r = [] then some v else none
  | none => none

/-! ### The SSE decode loop of `streamReconciliation` / `streamVisualization` -/

/-- The protocol marker `'data: '` checked by `line.startsWith('data: ')`. -/
def dataMark : List Nat := cps "data: "

/-- The sentinel payload `'[DONE]'`. -/
def doneMark : List Nat := cps "[DONE]"

/-- Left-to-right scan of `buffer.split('\n')`: `acc` holds the complete
lines found so far, `cur` the text after the last delimiter.  The final
`cur` is the part `lines.pop()` puts back into the buffer. -/
def splitRun (acc : List (List Nat)) (cur : List Nat) : List Nat → List (List Nat) × List Nat
  | [] => (acc, cur)
  | c :: cs => if c = 10 then splitRun (acc ++ [cur]) [] cs else splitRun acc (cur ++ [c]) cs

/-- Model of `s.split('\n')` of JavaScript: all fields, including the trailing
(possibly empty) one. -/
def jsSplitNl (s : List Nat) : List (List Nat) :=
  (splitRun [] [] s).1 ++ [(splitRun [] [] s).2]

/-- The body of the `for (const line of lines)` loop of
`streamReconciliation` (api.ts lines 104-114), iterated over the complete
lines of one chunk: a line participates only if it starts with `'data: '`;
the payload `line.slice(6)` terminates the generator if it is `'[DONE]'`
(second component `true`), is yielded if it parses as JSON, and is dropped
otherwise.  Lines after the sentinel are not inspected. -/
def dispatchLinesR : List (List Nat) → List Json × Bool
  | [] => ([], false)
  | line :: rest =>
    if line.take 6 = dataMark then
      let d := line.drop 6
      if d = doneMark then ([], true)
      else
        match parseJson d with
        | some ev =>
          let r := dispatchLinesR rest
          (ev :: r.1, r.2)
        | none => dispatchLinesR rest
    else dispatchLinesR rest

/-- Same loop body as it appears in `streamVisualization`
(api.ts lines 138-147). -/
def dispatchLinesV : List (List Nat) → List Json × Bool
  | [] => ([], false)
  | line :: rest =>
    if line.take 6 = dataMark then
      let d := line.drop 6
      if d = doneMark then ([], true)
      else
        match parseJson d with
        | some ev =>
          let r := dispatchLinesV rest
          (ev :: r.1, r.2)
        | none => dispatchLinesV rest
    else dispatchLinesV rest

/-- State of one iteration of the `while (true)` read loop: the carried
string `buffer`, the `TextDecoder` state, and whether the generator has
already returned on the sentinel. -/
structure LoopState where
  buffer : List Nat
  dec : DecoderState
  finished : Bool

/-- Initial loop state (`buffer = ''`, fresh decoder, generator live). -/
def loopInit : LoopState := ⟨[], decoderInit, false⟩

/-- One iteration of `streamReconciliation`'s read loop on a received
chunk (api.ts lines 96-115): decode with carry-over, append to the buffer,
split on `'\n'`, put the last field back (`buffer = lines.pop() || ''`),
and dispatch the complete lines; once the sentinel has returned the
generator, later chunks produce nothing. -/
def processChunkR (st : LoopState) (chunk : List Nat) : LoopState × List Json :=
  if st.finished then (st, [])
  else
    let d := decodeChunk st.dec chunk
    let parts := jsSplitNl (st.buffer ++ d.1)
    let r := dispatchLinesR parts.dropLast
    (⟨parts.getLastD [], d.2, r.2⟩, r.1)

/-- One iteration of `streamVisualization`'s read loop (api.ts lines
130-149). -/
def processChunkV (st : LoopState) (chunk : List Nat) : LoopState × List Json :=
  if st.finished then (st, [])
  else
    let d := decodeChunk st.dec chunk
    let parts := jsSplitNl (st.buffer ++ d.1)
    let r := dispatchLinesV parts.dropLast
    (⟨parts.getLastD [], d.2, r.2⟩, r.1)

/-- Run `streamReconciliation`'s loop over the successive chunks of the
response body; at end of body the loop breaks and the residual buffer is
discarded. -/
def runStreamR (st : LoopState) : List (List Nat) → List Json
  | [] => []
  | c :: cs =>
    let r := processChunkR st c
    r.2 ++ runStreamR r.1 cs

/-- Run `streamVisualization`'s loop over the chunks of the body. -/
def runStreamV (st : LoopState) : List (List Nat) → List Json
  | [] => []
  | c :: cs =>
    let r := processChunkV st c
    r.2 ++ runStreamV r.1 cs

/-- The ordered event sequence yielded by `streamReconciliation` for a
response body delivered as the given byte chunks (api.ts lines 80-116,
after the response checks). -/
def streamReconciliation (chunks : List (List Nat)) : List Json :=
  runStreamR loopInit chunks

/-- The ordered event sequence yielded by `streamVisualization` for a
response body delivered as the given byte chunks (api.ts lines 118-150). -/
def streamVisualization (chunks : List (List Nat)) : List Json :=
  runStreamV loopInit chunks

/-- A well-formed SSE body: each line followed by the `'\n'` delimiter. -/
def sseBody (lines : List (List Nat)) : List Nat :=
  (lines.map (· ++ [10])).flatten

/-! ### Session controller (`SessionContext.tsx`) and `/ask` call sites -/

/-- The `AuditData` record of `types.ts`. -/
structure AuditData where
  original_row_count : Nat
  clean_row_count : Nat
  duplicates_removed : Nat
  residual_nulls : Nat
  composite_key_present : Bool
  integrity_status : String

/-- The `ReconciliationSummary` record of `types.ts`. -/
structure ReconciliationSummary where
  session_id : String
  filename : String
  original_rows : Nat
  clean_rows : Nat
  duplicates_removed : Nat
  audit : AuditData

/-- The `HealthResponse` record of `types.ts`. -/
structure HealthResponse where
  status : String
  has_session : Bool
  filename : Option String

/-- The state triple owned by `SessionProvider`: `hasSession`,
`sessionData`, `backendOnline`. -/
structure SessionState where
  hasSession : Bool
  sessionData : Option ReconciliationSummary
  backendOnline : Bool

/-- The `useState` initial values of `SessionProvider` (lines 16-18):
no session, no data, optimistically online. -/
def initialSessionState : SessionState := ⟨false, none, true⟩

/-- The `setSessionData` exposed in the context value
(SessionContext.tsx lines 45-48): store `data` and set
`hasSession = !!data`.  `backendOnline` is not written. -/
def setSessionData (s : SessionState) (data : Option ReconciliationSummary) : SessionState :=
  { s with sessionData := data, hasSession := data.isSome }

/-- Model of `checkHealth` (api.ts lines 74-78) applied to the outcome of
`fetch('/health')`: a rejected fetch (`none`) propagates as an error, a
response with `ok = false` throws `'Backend offline'`, otherwise the
parsed body is returned. -/
def checkHealth (response : Option (Bool × HealthResponse)) : Except String HealthResponse :=
  match response with
  | none => .error "network error"
  | some (ok, body) => if ok then .ok body else .error "Backend offline"

/-- Model of `refreshSession` (SessionContext.tsx lines 20-33) applied to the
outcome of `checkHealth`: on success set `backendOnline = true`, copy
`has_session`, and clear the cached data when `has_session` is false; on
any thrown error set `backendOnline = false` and `hasSession = false`. -/
def refreshSession (s : SessionState) (probe : Except String HealthResponse) : SessionState :=
  match probe with
  | .ok health =>
    let s1 := { s with backendOnline := true, hasSession := health.has_session }
    if health.has_session then s1 else { s1 with sessionData := none }
  | .error _ => { s with backendOnline := false, hasSession := false }

/-- The statically configured parts of one `fetch` call: method, path and
the `AbortSignal.timeout` argument if one is passed. -/
structure FetchConfig where
  method : String
  path : String
  timeoutMs : Option Nat

/-- The request issued by `askQuestion` (api.ts lines 156-167): a plain
POST to `/ask` with JSON body and no abort signal. -/
def askQuestionRequest : FetchConfig := ⟨"POST", "/ask", none⟩

/-- The request issued by `InsightCard.fetchInsight`
(the visualize page, lines 196-211): POST to `/ask` with
`signal: AbortSignal.timeout(25000)`. -/
def insightAskRequest : FetchConfig := ⟨"POST", "/ask", some 25000⟩

/-- All `/ask` requests issued by the client: the chat path goes through
`askQuestion`, the insight card issues its own fetch. -/
def askEndpointRequests : List FetchConfig := [askQuestionRequest, insightAskRequest]

/-! ### Composition lemmas for the decode loop -/

/-- The scan `splitRun` processes concatenated input by carrying its state across
the boundary. -/
theorem splitRun_append : ∀ (xs : List Nat) (ys : List Nat) (acc : List (List Nat))
    (cur : List Nat),
    splitRun acc cur (xs ++ ys) = splitRun (splitRun acc cur xs).1 (splitRun acc cur xs).2 ys
  | [], _, _, _ => by simp [splitRun]
  | c :: xs, ys, acc, cur => by
    by_cases h : c = 10 <;> simp only [List.cons_append, splitRun, h, if_true, if_false] <;>
      exact splitRun_append xs ys _ _

/-- The accumulator of `splitRun` only collects output: it can be split
off. -/
theorem splitRun_acc : ∀ (xs : List Nat) (acc : List (List Nat)) (cur : List Nat),
    splitRun acc cur xs = (acc ++ (splitRun [] cur xs).1, (splitRun [] cur xs).2)
  | [], acc, cur => by simp [splitRun]
  | c :: xs, acc, cur => by
    by_cases h : c = 10
    · subst h
      simp only [splitRun, if_pos rfl, List.nil_append]
      rw [splitRun_acc xs (acc ++ [cur]) [], splitRun_acc xs [cur] []]
      simp
    · simp only [splitRun, if_neg h]
      exact splitRun_acc xs acc (cur ++ [c])

/-- Delimiter-free input only extends the current field of `splitRun`. -/
theorem splitRun_chew : ∀ (zs : List Nat), (∀ c ∈ zs, c ≠ 10) →
    ∀ (xs : List Nat) (acc : List (List Nat)) (cur : List Nat),
    splitRun acc cur (zs ++ xs) = splitRun acc (cur ++ zs) xs
  | [], _, xs, acc, cur => by simp
  | z :: zs, h, xs, acc, cur => by
    have hz : z ≠ 10 := h z (List.mem_cons_self z zs)
    simp only [List.cons_append, splitRun, if_neg hz, List.append_eq]
    rw [splitRun_chew zs (fun c hc => h c (List.mem_cons_of_mem z hc)) xs acc (cur ++ [z])]
    simp

/-- The remainder produced by `splitRun` contains no delimiter. -/
theorem splitRun_snd_noNl : ∀ (xs : List Nat) (acc : List (List Nat)) (cur : List Nat),
    (∀ c ∈ cur, c ≠ 10) → ∀ c ∈ (splitRun acc cur xs).2, c ≠ 10
  | [], _, _, hcur => hcur
  | c :: xs, acc, cur, hcur => by
    by_cases h : c = 10
    · subst h
      simp only [splitRun, if_pos rfl]
      exact splitRun_snd_noNl xs (acc ++ [cur]) [] (by simp)
    · simp only [splitRun, if_neg h]
      refine splitRun_snd_noNl xs acc (cur ++ [c]) ?_
      intro d hd
      rcases List.mem_append.mp hd with hd | hd
      · exact hcur d hd
      · simp only [List.mem_singleton] at hd; subst hd; exact h

/-- A streaming `TextDecoder` decodes concatenated chunks by carrying its
state across the boundary. -/
theorem decodeChunk_append : ∀ (bs1 bs2 : List Nat) (s : DecoderState),
    decodeChunk s (bs1 ++ bs2) =
      ((decodeChunk s bs1).1 ++ (decodeChunk (decodeChunk s bs1).2 bs2).1,
        (decodeChunk (decodeChunk s bs1).2 bs2).2)
  | [], _, s => by simp [decodeChunk]
  | b :: bs1, bs2, s => by
    simp only [List.cons_append, decodeChunk, List.append_eq]
    rw [decodeChunk_append bs1 bs2 (decoderStep s b).2]
    simp

/-- While no sentinel has been seen, the dispatch loop processes
concatenated line lists in sequence. -/
theorem dispatchLinesR_append_live : ∀ (L1 L2 : List (List Nat)),
    (dispatchLinesR L1).2 = false →
    dispatchLinesR (L1 ++ L2) =
      ((dispatchLinesR L1).1 ++ (dispatchLinesR L2).1, (dispatchLinesR L2).2)
  | [], L2, _ => by simp [dispatchLinesR]
  | line :: L1, L2, h => by
    by_cases hd : line.take 6 = dataMark
    · by_cases hs : line.drop 6 = doneMark
      · exfalso
        simp [dispatchLinesR, hd, hs] at h
      · cases hp : parseJson (line.drop 6) with
        | some ev =>
          have h' : (dispatchLinesR L1).2 = false := by
            simpa [dispatchLinesR, hd, hs, hp] using h
          simp [dispatchLinesR, hd, hs, hp, dispatchLinesR_append_live L1 L2 h']
        | none =>
          have h' : (dispatchLinesR L1).2 = false := by
            simpa [dispatchLinesR, hd, hs, hp] using h
          simp [dispatchLinesR, hd, hs, hp, dispatchLinesR_append_live L1 L2 h']
    · have h' : (dispatchLinesR L1).2 = false := by
        simpa [dispatchLinesR, hd] using h
      simp [dispatchLinesR, hd, dispatchLinesR_append_live L1 L2 h']

/-- Once the sentinel has been seen, later lines contribute nothing to the
dispatch loop. -/
theorem dispatchLinesR_append_done : ∀ (L1 L2 : List (List Nat)),
    (dispatchLinesR L1).2 = true →
    dispatchLinesR (L1 ++ L2) = ((dispatchLinesR L1).1, true)
  | [], _, h => by simp [dispatchLinesR] at h
  | line :: L1, L2, h => by
    by_cases hd : line.take 6 = dataMark
    · by_cases hs : line.drop 6 = doneMark
      · simp [dispatchLinesR, hd, hs]
      · cases hp : parseJson (line.drop 6) with
        | some ev =>
          have h' : (dispatchLinesR L1).2 = true := by
            simpa [dispatchLinesR, hd, hs, hp] using h
          simp [dispatchLinesR, hd, hs, hp, dispatchLinesR_append_done L1 L2 h']
        | none =>
          have h' : (dispatchLinesR L1).2 = true := by
            simpa [dispatchLinesR, hd, hs, hp] using h
          simp [dispatchLinesR, hd, hs, hp, dispatchLinesR_append_done L1 L2 h']
    · have h' : (dispatchLinesR L1).2 = true := by
        simpa [dispatchLinesR, hd] using h
      simp [dispatchLinesR, hd, dispatchLinesR_append_done L1 L2 h']

/-- The complete lines of `jsSplitNl` are the scan's accumulator. -/
theorem jsSplitNl_dropLast (s : List Nat) : (jsSplitNl s).dropLast = (splitRun [] [] s).1 := by
  simp [jsSplitNl]

/-- The last field of `jsSplitNl` is the scan's remainder. -/
theorem jsSplitNl_getLastD (s : List Nat) : (jsSplitNl s).getLastD [] = (splitRun [] [] s).2 := by
  simp [jsSplitNl, List.getLastD_concat]

/-- Variant of `jsSplitNl_getLastD` phrased with `getLast?`. -/
theorem jsSplitNl_getLastQ (s : List Nat) : (jsSplitNl s).getLast? = some (splitRun [] [] s).2 := by
  simp [jsSplitNl]

/-- Unfolding of one live loop iteration in terms of the scan and the
dispatch loop. -/
theorem processChunkR_eq (st : LoopState) (chunk : List Nat) (hf : st.finished = false) :
    processChunkR st chunk =
      (⟨(splitRun [] [] (st.buffer ++ (decodeChunk st.dec chunk).1)).2,
        (decodeChunk st.dec chunk).2,
        (dispatchLinesR (splitRun [] [] (st.buffer ++ (decodeChunk st.dec chunk).1)).1).2⟩,
       (dispatchLinesR (splitRun [] [] (st.buffer ++ (decodeChunk st.dec chunk).1)).1).1) := by
  simp [processChunkR, hf, jsSplitNl_dropLast, jsSplitNl_getLastD, jsSplitNl_getLastQ]

/-- The loop's buffer never contains a delimiter. -/
theorem processChunkR_buffer_noNl (st : LoopState) (chunk : List Nat)
    (hb : ∀ c ∈ st.buffer, c ≠ 10) : ∀ c ∈ (processChunkR st chunk).1.buffer, c ≠ 10 := by
  cases hf : st.finished
  · rw [processChunkR_eq st chunk hf]
    exact splitRun_snd_noNl _ _ [] (by simp)
  · simpa [processChunkR, hf] using hb

/-- Splitting one received chunk in two produces the same events: the
loop iteration composes. -/
theorem processChunkR_append (st : LoopState) (c1 c2 : List Nat) :
    (processChunkR st (c1 ++ c2)).2
      = (processChunkR st c1).2 ++ (processChunkR (processChunkR st c1).1 c2).2 := by
  cases hf : st.finished
  case true => simp [processChunkR, hf]
  case false =>
  have hb1 : ∀ c ∈ (splitRun [] [] (st.buffer ++ (decodeChunk st.dec c1).1)).2, c ≠ 10 :=
    splitRun_snd_noNl _ _ [] (by simp)
  have hsplit :
      splitRun [] [] (st.buffer ++ (decodeChunk st.dec (c1 ++ c2)).1)
        = ((splitRun [] [] (st.buffer ++ (decodeChunk st.dec c1).1)).1 ++
            (splitRun [] [] ((splitRun [] [] (st.buffer ++ (decodeChunk st.dec c1).1)).2 ++
              (decodeChunk (decodeChunk st.dec c1).2 c2).1)).1,
           (splitRun [] [] ((splitRun [] [] (st.buffer ++ (decodeChunk st.dec c1).1)).2 ++
              (decodeChunk (decodeChunk st.dec c1).2 c2).1)).2) := by
    rw [decodeChunk_append c1 c2 st.dec]
    rw [show st.buffer ++ ((decodeChunk st.dec c1).1 ++ (decodeChunk (decodeChunk st.dec c1).2 c2).1)
          = (st.buffer ++ (decodeChunk st.dec c1).1) ++ (decodeChunk (decodeChunk st.dec c1).2 c2).1
        from by simp]
    rw [splitRun_append, splitRun_acc]
    rw [show splitRun [] (splitRun [] [] (st.buffer ++ (decodeChunk st.dec c1).1)).2
              (decodeChunk (decodeChunk st.dec c1).2 c2).1
          = splitRun [] ([] ++ (splitRun [] [] (st.buffer ++ (decodeChunk st.dec c1).1)).2)
              (decodeChunk (decodeChunk st.dec c1).2 c2).1
        from by simp]
    rw [← splitRun_chew _ hb1]
  rw [processChunkR_eq st (c1 ++ c2) hf, processChunkR_eq st c1 hf, hsplit]
  cases hflag : (dispatchLinesR (splitRun [] [] (st.buffer ++ (decodeChunk st.dec c1).1)).1).2
  case false =>
    rw [dispatchLinesR_append_live _ _ hflag]
    rw [processChunkR_eq _ c2 rfl]
  case true =>
    rw [dispatchLinesR_append_done _ _ hflag]
    simp [processChunkR]

/-- Iterating the loop over a chunk list produces the same events as one
iteration over the concatenated body. -/
theorem runStreamR_flatten : ∀ (cs : List (List Nat)) (st : LoopState),
    (∀ c ∈ st.buffer, c ≠ 10) → runStreamR st cs = (processChunkR st cs.flatten).2
  | [], st, hb => by
    cases hf : st.finished
    case true => simp [runStreamR, processChunkR, hf]
    case false =>
      have hsplit : splitRun [] [] st.buffer = ([], st.buffer) := by
        simpa using splitRun_chew st.buffer hb [] [] []
      rw [runStreamR]
      rw [show ([] : List (List Nat)).flatten = [] from rfl]
      rw [processChunkR_eq st [] hf]
      simp [decodeChunk, hsplit, dispatchLinesR]
  | c :: cs, st, hb => by
    rw [runStreamR]
    rw [runStreamR_flatten cs (processChunkR st c).1 (processChunkR_buffer_noNl st c hb)]
    rw [show (c :: cs).flatten = c ++ cs.flatten from rfl]
    rw [processChunkR_append st c cs.flatten]

/-- The two copies of the `for (const line of lines)` loop body are the
same function. -/
theorem dispatchLinesV_eq : ∀ (L : List (List Nat)), dispatchLinesV L = dispatchLinesR L
  | [] => rfl
  | line :: L => by
    simp only [dispatchLinesV, dispatchLinesR, dispatchLinesV_eq L]

/-- The two copies of the read-loop iteration are the same function. -/
theorem processChunkV_eq (st : LoopState) (chunk : List Nat) :
    processChunkV st chunk = processChunkR st chunk := by
  simp only [processChunkV, processChunkR, dispatchLinesV_eq]

/-- The two copies of the read loop are the same function. -/
theorem runStreamV_eq : ∀ (cs : List (List Nat)) (st : LoopState),
    runStreamV st cs = runStreamR st cs
  | [], _ => rfl
  | c :: cs, st => by
    simp only [runStreamV, runStreamR, processChunkV_eq, runStreamV_eq cs]

/-- C1: for every SSE byte stream and every partition of it into arbitrary
chunk boundaries (including splits inside a UTF-8 multi-byte sequence or
inside a line), iterating `streamReconciliation` over the partitioned
chunks yields the identical ordered event sequence as iterating it over
the stream delivered as a single chunk. -/
theorem streamReconciliation_chunking_invariant (chunks : List (List Nat)) :
    streamReconciliation chunks = streamReconciliation [chunks.flatten] := by
  unfold streamReconciliation
  rw [runStreamR_flatten chunks loopInit (by intro c hc; simp [loopInit] at hc),
    runStreamR_flatten [chunks.flatten] loopInit (by intro c hc; simp [loopInit] at hc)]
  simp

/-- C10: for every sequence of byte chunks delivered as a response body,
`streamReconciliation` and `streamVisualization` produce identical event
sequences: their decode-and-dispatch loops are the same function of the
body bytes. -/
theorem streamReconciliation_eq_streamVisualization (chunks : List (List Nat)) :
    streamReconciliation chunks = streamVisualization chunks := by
  unfold streamReconciliation streamVisualization
  rw [runStreamV_eq]

/-! ### Decoding the encoding of well-formed text -/

/-- In the initial state the decoder step is the lead-byte step. -/
theorem utf8Step_init (b : Nat) : utf8Step utf8Init b = utf8StepInit b := by
  simp [utf8Step, utf8Init]

/-- ASCII bytes are emitted directly. -/
theorem utf8StepInit_ascii (b : Nat) (h : b ≤ 0x7F) : utf8StepInit b = ([b], utf8Init) := by
  rw [utf8StepInit, if_pos h]

/-- A two-byte lead opens a one-continuation sequence. -/
theorem utf8StepInit_lead2 (b : Nat) (h1 : 0xC2 ≤ b) (h2 : b ≤ 0xDF) :
    utf8StepInit b = ([], ⟨b - 0xC0, 1, 0x80, 0xBF⟩) := by
  rw [utf8StepInit, if_neg (by omega), if_neg (by omega), if_pos h2]

/-- A three-byte lead opens a two-continuation sequence. -/
theorem utf8StepInit_lead3 (b : Nat) (h1 : 0xE0 ≤ b) (h2 : b ≤ 0xEF) :
    utf8StepInit b = ([], ⟨b - 0xE0, 2, if b = 0xE0 then 0xA0 else 0x80,
      if b = 0xED then 0x9F else 0xBF⟩) := by
  rw [utf8StepInit, if_neg (by omega), if_neg (by omega), if_neg (by omega), if_pos h2]

/-- A four-byte lead opens a three-continuation sequence. -/
theorem utf8StepInit_lead4 (b : Nat) (h1 : 0xF0 ≤ b) (h2 : b ≤ 0xF4) :
    utf8StepInit b = ([], ⟨b - 0xF0, 3, if b = 0xF0 then 0x90 else 0x80,
      if b = 0xF4 then 0x8F else 0xBF⟩) := by
  rw [utf8StepInit, if_neg (by omega), if_neg (by omega), if_neg (by omega), if_neg (by omega),
    if_pos h2]

/-- An in-range continuation byte that is not the last accumulates. -/
theorem utf8Step_cont_mid (cp lo up b n : Nat) (hn : 2 ≤ n) (h1 : lo ≤ b) (h2 : b ≤ up) :
    utf8Step ⟨cp, n, lo, up⟩ b = ([], ⟨cp * 64 + (b - 0x80), n - 1, 0x80, 0xBF⟩) := by
  simp only [utf8Step]
  rw [if_neg (by omega : ¬n = 0), if_pos ⟨h1, h2⟩, if_neg (by omega : ¬n = 1)]

/-- The last in-range continuation byte emits the accumulated code
point. -/
theorem utf8Step_cont_last (cp lo up b : Nat) (h1 : lo ≤ b) (h2 : b ≤ up) :
    utf8Step ⟨cp, 1, lo, up⟩ b = ([cp * 64 + (b - 0x80)], utf8Init) := by
  simp only [utf8Step]
  rw [if_neg (by omega : ¬(1 : Nat) = 0), if_pos ⟨h1, h2⟩]
  simp

/-- A decoder step that emits nothing keeps the BOM flag. -/
theorem decoderStep_none {s : DecoderState} {b : Nat} {u : Utf8State}
    (hstep : utf8Step s.utf8 b = ([], u)) : decoderStep s b = ([], ⟨u, s.firstDone⟩) := by
  cases hf : s.firstDone <;> simp [decoderStep, hstep, hf]

/-- A decoder step that emits a single non-BOM code point passes it
through and marks the first code point as seen. -/
theorem decoderStep_one {s : DecoderState} {b c : Nat} {u : Utf8State}
    (hstep : utf8Step s.utf8 b = ([c], u)) (hc : c ≠ 0xFEFF) :
    decoderStep s b = ([c], ⟨u, true⟩) := by
  cases hf : s.firstDone <;> simp [decoderStep, hstep, hf, hc]

/-- Restatement of `decoderStep_none` with the state given by components. -/
theorem decoderStep_none2 (u0 : Utf8State) (f : Bool) (b : Nat) {u : Utf8State}
    (hstep : utf8Step u0 b = ([], u)) : decoderStep ⟨u0, f⟩ b = ([], ⟨u, f⟩) :=
  decoderStep_none hstep

/-- Restatement of `decoderStep_one` with the state given by components. -/
theorem decoderStep_one2 (u0 : Utf8State) (f : Bool) (b : Nat) {c : Nat} {u : Utf8State}
    (hstep : utf8Step u0 b = ([c], u)) (hc : c ≠ 0xFEFF) :
    decoderStep ⟨u0, f⟩ b = ([c], ⟨u, true⟩) :=
  decoderStep_one hstep hc

/-- Decoding the UTF-8 encoding of one admissible code point from a fresh
UTF-8 state recovers exactly that code point. -/
theorem decodeChunk_encodeCp (f : Bool) (c : Nat) (hv : ValidCp c) (hn : c ≠ 0xFEFF) :
    decodeChunk ⟨utf8Init, f⟩ (utf8EncodeCp c) = ([c], ⟨utf8Init, true⟩) := by
  by_cases h1 : c ≤ 0x7F
  · have henc : utf8EncodeCp c = [c] := by rw [utf8EncodeCp, if_pos h1]
    have s1 : decoderStep ⟨utf8Init, f⟩ c = ([c], ⟨utf8Init, true⟩) :=
      decoderStep_one2 _ _ _ (by rw [utf8Step_init, utf8StepInit_ascii c h1]) hn
    rw [henc]
    simp [decodeChunk, s1]
  · by_cases h2 : c ≤ 0x7FF
    · have henc : utf8EncodeCp c = [0xC0 + c / 64, 0x80 + c % 64] := by
        rw [utf8EncodeCp, if_neg h1, if_pos h2]
      have s1 : decoderStep ⟨utf8Init, f⟩ (0xC0 + c / 64) = ([], ⟨⟨c / 64, 1, 0x80, 0xBF⟩, f⟩) := by
        refine decoderStep_none2 _ _ _ ?_
        rw [utf8Step_init, utf8StepInit_lead2 _ (by omega) (by omega),
          show 0xC0 + c / 64 - 0xC0 = c / 64 from by omega]
      have s2 : decoderStep ⟨⟨c / 64, 1, 0x80, 0xBF⟩, f⟩ (0x80 + c % 64)
          = ([c], ⟨utf8Init, true⟩) := by
        refine decoderStep_one2 _ _ _ ?_ hn
        rw [utf8Step_cont_last _ _ _ _ (by omega) (by omega),
          show c / 64 * 64 + (0x80 + c % 64 - 0x80) = c from by omega]
      rw [henc]
      simp [decodeChunk, s1, s2]
    · by_cases h3 : c ≤ 0xFFFF
      · have hsur : c < 0xD800 ∨ 0xE000 ≤ c := by
          rcases hv with h | h
          · exact Or.inl h
          · exact Or.inr h.1
        have henc : utf8EncodeCp c = [0xE0 + c / 4096, 0x80 + c / 64 % 64, 0x80 + c % 64] := by
          rw [utf8EncodeCp, if_neg h1, if_neg h2, if_pos h3]
        have s1 : decoderStep ⟨utf8Init, f⟩ (0xE0 + c / 4096)
            = ([], ⟨⟨c / 4096, 2, if 0xE0 + c / 4096 = 0xE0 then 0xA0 else 0x80,
                if 0xE0 + c / 4096 = 0xED then 0x9F else 0xBF⟩, f⟩) := by
          refine decoderStep_none2 _ _ _ ?_
          rw [utf8Step_init, utf8StepInit_lead3 _ (by omega) (by omega),
            show 0xE0 + c / 4096 - 0xE0 = c / 4096 from by omega]
        have s2 : decoderStep ⟨⟨c / 4096, 2, if 0xE0 + c / 4096 = 0xE0 then 0xA0 else 0x80,
              if 0xE0 + c / 4096 = 0xED then 0x9F else 0xBF⟩, f⟩ (0x80 + c / 64 % 64)
            = ([], ⟨⟨c / 64, 1, 0x80, 0xBF⟩, f⟩) := by
          refine decoderStep_none2 _ _ _ ?_
          rw [utf8Step_cont_mid _ _ _ _ _ (by omega)
            (by split_ifs <;> omega) (by split_ifs <;> omega)]
          rw [show c / 4096 * 64 + (0x80 + c / 64 % 64 - 0x80) = c / 64 from by omega]
        have s3 : decoderStep ⟨⟨c / 64, 1, 0x80, 0xBF⟩, f⟩ (0x80 + c % 64)
            = ([c], ⟨utf8Init, true⟩) := by
          refine decoderStep_one2 _ _ _ ?_ hn
          rw [utf8Step_cont_last _ _ _ _ (by omega) (by omega),
            show c / 64 * 64 + (0x80 + c % 64 - 0x80) = c from by omega]
        rw [henc]
        simp only [decodeChunk, s1, s2, s3, List.nil_append, List.append_nil]
      · have hle : c ≤ 0x10FFFF := by
          rcases hv with h | h
          · omega
          · exact h.2
        have henc : utf8EncodeCp c
            = [0xF0 + c / 262144, 0x80 + c / 4096 % 64, 0x80 + c / 64 % 64, 0x80 + c % 64] := by
          rw [utf8EncodeCp, if_neg h1, if_neg h2, if_neg h3]
        have s1 : decoderStep ⟨utf8Init, f⟩ (0xF0 + c / 262144)
            = ([], ⟨⟨c / 262144, 3, if 0xF0 + c / 262144 = 0xF0 then 0x90 else 0x80,
                if 0xF0 + c / 262144 = 0xF4 then 0x8F else 0xBF⟩, f⟩) := by
          refine decoderStep_none2 _ _ _ ?_
          rw [utf8Step_init, utf8StepInit_lead4 _ (by omega) (by omega),
            show 0xF0 + c / 262144 - 0xF0 = c / 262144 from by omega]
        have s2 : decoderStep ⟨⟨c / 262144, 3, if 0xF0 + c / 262144 = 0xF0 then 0x90 else 0x80,
              if 0xF0 + c / 262144 = 0xF4 then 0x8F else 0xBF⟩, f⟩ (0x80 + c / 4096 % 64)
            = ([], ⟨⟨c / 4096, 2, 0x80, 0xBF⟩, f⟩) := by
          refine decoderStep_none2 _ _ _ ?_
          rw [utf8Step_cont_mid _ _ _ _ _ (by omega)
            (by split_ifs <;> omega) (by split_ifs <;> omega)]
          rw [show c / 262144 * 64 + (0x80 + c / 4096 % 64 - 0x80) = c / 4096 from by omega]
        have s3 : decoderStep ⟨⟨c / 4096, 2, 0x80, 0xBF⟩, f⟩ (0x80 + c / 64 % 64)
            = ([], ⟨⟨c / 64, 1, 0x80, 0xBF⟩, f⟩) := by
          refine decoderStep_none2 _ _ _ ?_
          rw [utf8Step_cont_mid _ _ _ _ _ (by omega) (by omega) (by omega)]
          rw [show c / 4096 * 64 + (0x80 + c / 64 % 64 - 0x80) = c / 64 from by omega]
        have s4 : decoderStep ⟨⟨c / 64, 1, 0x80, 0xBF⟩, f⟩ (0x80 + c % 64)
            = ([c], ⟨utf8Init, true⟩) := by
          refine decoderStep_one2 _ _ _ ?_ hn
          rw [utf8Step_cont_last _ _ _ _ (by omega) (by omega),
            show c / 64 * 64 + (0x80 + c % 64 - 0x80) = c from by omega]
        rw [henc]
        simp only [decodeChunk, s1, s2, s3, s4, List.nil_append, List.append_nil]

/-- Decoding the UTF-8 encoding of admissible text recovers the text. -/
theorem decodeChunk_encode : ∀ (t : List Nat) (f : Bool),
    (∀ c ∈ t, ValidCp c ∧ c ≠ 0xFEFF) →
    decodeChunk ⟨utf8Init, f⟩ (utf8Encode t) = (t, ⟨utf8Init, f || !t.isEmpty⟩)
  | [], f, _ => by simp [utf8Encode, decodeChunk]
  | c :: t, f, h => by
    have hc := h c (List.mem_cons_self c t)
    have ht : ∀ d ∈ t, ValidCp d ∧ d ≠ 0xFEFF := fun d hd => h d (List.mem_cons_of_mem c hd)
    rw [show utf8Encode (c :: t) = utf8EncodeCp c ++ utf8Encode t from by simp [utf8Encode]]
    rw [decodeChunk_append]
    rw [decodeChunk_encodeCp f c hc.1 hc.2]
    rw [decodeChunk_encode t true ht]
    simp

/-- For a body of admissible text delivered as one chunk, the stream is
the dispatch loop applied to the complete lines of the text. -/
theorem streamReconciliation_text (t : List Nat) (h : ∀ c ∈ t, ValidCp c ∧ c ≠ 0xFEFF) :
    streamReconciliation [utf8Encode t] = (dispatchLinesR (splitRun [] [] t).1).1 := by
  unfold streamReconciliation
  simp only [runStreamR]
  rw [processChunkR_eq loopInit _ rfl]
  rw [show loopInit.dec = (⟨utf8Init, false⟩ : DecoderState) from rfl]
  rw [decodeChunk_encode t false h]
  simp [loopInit]

/-- The code points of a well-formed body built from admissible lines are
admissible. -/
theorem sseBody_valid (L : List (List Nat)) (h : ∀ l ∈ L, ValidLine l) :
    ∀ c ∈ sseBody L, ValidCp c ∧ c ≠ 0xFEFF := by
  intro c hc
  simp only [sseBody, List.mem_flatten, List.mem_map] at hc
  obtain ⟨_, ⟨l, hl, rfl⟩, hcl⟩ := hc
  rcases List.mem_append.mp hcl with hcl | hcl
  · exact ⟨(h l hl c hcl).1, (h l hl c hcl).2.2⟩
  · simp only [List.mem_singleton] at hcl
    subst hcl
    exact ⟨Or.inl (by omega), by omega⟩

/-- Scanning a well-formed body recovers exactly its lines, with an empty
remainder. -/
theorem splitRun_sseBody : ∀ (L : List (List Nat)) (acc : List (List Nat)),
    (∀ l ∈ L, ∀ c ∈ l, c ≠ 10) → splitRun acc [] (sseBody L) = (acc ++ L, [])
  | [], acc, _ => by simp [sseBody, splitRun]
  | l :: L, acc, h => by
    have hl : ∀ c ∈ l, c ≠ 10 := h l (List.mem_cons_self l L)
    rw [show sseBody (l :: L) = l ++ (10 :: sseBody L) from by simp [sseBody]]
    rw [splitRun_chew l hl]
    simp only [List.nil_append]
    rw [splitRun, if_pos rfl]
    rw [splitRun_sseBody L (acc ++ [l]) (fun l' hl' => h l' (List.mem_cons_of_mem l hl'))]
    simp

/-- For a well-formed body of admissible lines delivered as one chunk,
the stream is the dispatch loop applied to those lines. -/
theorem streamReconciliation_lines (L : List (List Nat)) (h : ∀ l ∈ L, ValidLine l) :
    streamReconciliation [utf8Encode (sseBody L)] = (dispatchLinesR L).1 := by
  rw [streamReconciliation_text _ (sseBody_valid L h)]
  rw [splitRun_sseBody L [] (fun l hl c hc => (h l hl c hc).2.1)]
  simp

/-- C2: for every response body containing a line `data: [DONE]`, the
event sequence terminates at that line: no event derives from any later
line, even when further valid `data:` lines follow the sentinel in the
same body. -/
theorem streamReconciliation_stops_at_done (pre post : List (List Nat))
    (hpre : ∀ l ∈ pre, ValidLine l) (hpost : ∀ l ∈ post, ValidLine l) :
    streamReconciliation [utf8Encode (sseBody (pre ++ [cps "data: [DONE]"] ++ post))]
      = streamReconciliation [utf8Encode (sseBody (pre ++ [cps "data: [DONE]"]))] := by
  have hdl : ValidLine (cps "data: [DONE]") := by decide
  have h1 : ∀ l ∈ pre ++ [cps "data: [DONE]"] ++ post, ValidLine l := by
    intro l hl
    rcases List.mem_append.mp hl with hl | hl
    · rcases List.mem_append.mp hl with hl | hl
      · exact hpre l hl
      · simp only [List.mem_singleton] at hl
        subst hl
        exact hdl
    · exact hpost l hl
  have h2 : ∀ l ∈ pre ++ [cps "data: [DONE]"], ValidLine l := by
    intro l hl
    rcases List.mem_append.mp hl with hl | hl
    · exact hpre l hl
    · simp only [List.mem_singleton] at hl
      subst hl
      exact hdl
  rw [streamReconciliation_lines _ h1, streamReconciliation_lines _ h2]
  have hdone : (dispatchLinesR (pre ++ [cps "data: [DONE]"])).2 = true := by
    cases hflag : (dispatchLinesR pre).2
    · rw [dispatchLinesR_append_live pre _ hflag]
      exact (by decide : (dispatchLinesR [cps "data: [DONE]"]).2 = true)
    · rw [dispatchLinesR_append_done pre _ hflag]
  rw [dispatchLinesR_append_done _ post hdone]

/-- Witness for C2 at the spec's concrete scenario: a thought line, then
the sentinel, then another valid thought line. -/
theorem streamReconciliation_stops_at_done_witness :
    streamReconciliation [utf8Encode (sseBody
        ([cps "data: \x7b\"type\":\"thought\",\"data\":\"a\"\x7d"] ++ [cps "data: [DONE]"]
          ++ [cps "data: \x7b\"type\":\"thought\",\"data\":\"b\"\x7d"]))]
      = streamReconciliation [utf8Encode (sseBody
          ([cps "data: \x7b\"type\":\"thought\",\"data\":\"a\"\x7d"] ++ [cps "data: [DONE]"]))] :=
  streamReconciliation_stops_at_done _ _ (by decide) (by decide)

/-- C3: a `data:` line whose payload fails JSON parsing (and is not the
sentinel) contributes no event and does not abort the stream: the events
are those of the remaining lines. -/
theorem streamReconciliation_drops_bad_json (bad : List Nat) (rest : List (List Nat))
    (hdata : bad.take 6 = dataMark) (hparse : parseJson (bad.drop 6) = none)
    (hnotdone : bad.drop 6 ≠ doneMark) (hbad : ValidLine bad)
    (hrest : ∀ l ∈ rest, ValidLine l) :
    streamReconciliation [utf8Encode (sseBody (bad :: rest))]
      = streamReconciliation [utf8Encode (sseBody rest)] := by
  have h1 : ∀ l ∈ bad :: rest, ValidLine l := by
    intro l hl
    rcases List.mem_cons.mp hl with hl | hl
    · subst hl
      exact hbad
    · exact hrest l hl
  rw [streamReconciliation_lines _ h1, streamReconciliation_lines _ hrest]
  simp [dispatchLinesR, hdata, hnotdone, hparse]

/-- Witness for C3 at the spec's concrete scenario: `data: {not json}`
followed by a valid thought line yields exactly the one thought event. -/
theorem streamReconciliation_drops_bad_json_witness :
    (streamReconciliation [utf8Encode (sseBody
        [cps "data: \x7bnot json\x7d", cps "data: \x7b\"type\":\"thought\",\"data\":\"x\"\x7d"])]
      = streamReconciliation [utf8Encode (sseBody
          [cps "data: \x7b\"type\":\"thought\",\"data\":\"x\"\x7d"])])
    ∧ streamReconciliation [utf8Encode (sseBody
        [cps "data: \x7b\"type\":\"thought\",\"data\":\"x\"\x7d"])]
      = [Json.obj [(cps "type", Json.str (cps "thought")), (cps "data", Json.str (cps "x"))]] :=
  ⟨streamReconciliation_drops_bad_json _ _ (by decide) rfl (by decide) (by decide)
      (by decide),
    rfl⟩

/-- C9: every successfully JSON-parsed `data:` payload is yielded to the
consumer unchanged, whatever shape the parsed value has (no filtering on
a `type` discriminator). -/
theorem streamReconciliation_yields_parsed (d : List Nat) (v : Json)
    (hparse : parseJson d = some v) (hd : ValidLine d) :
    streamReconciliation [utf8Encode (sseBody [dataMark ++ d])] = [v] := by
  have hline : ∀ l ∈ [dataMark ++ d], ValidLine l := by
    intro l hl
    simp only [List.mem_singleton] at hl
    subst hl
    intro c hc
    rcases List.mem_append.mp hc with hc | hc
    · exact (by decide : ValidLine dataMark) c hc
    · exact hd c hc
  rw [streamReconciliation_lines _ hline]
  have htake : (dataMark ++ d).take 6 = dataMark := by
    rw [show (6 : Nat) = dataMark.length from rfl]
    exact List.take_left dataMark d
  have hdrop : (dataMark ++ d).drop 6 = d := by
    rw [show (6 : Nat) = dataMark.length from rfl]
    exact List.drop_left dataMark d
  have hne : d ≠ doneMark := by
    intro he
    have h0 : parseJson doneMark = none := rfl
    rw [he, h0] at hparse
    exact Option.noConfusion hparse
  simp [dispatchLinesR, htake, hdrop, hne, hparse]

/-- Witness for C9: a payload with an unknown `type` discriminator is
passed through untouched. -/
theorem streamReconciliation_yields_parsed_witness :
    streamReconciliation [utf8Encode (sseBody [dataMark ++ cps "\x7b\"type\":\"mystery\"\x7d"])]
      = [Json.obj [(cps "type", Json.str (cps "mystery"))]] :=
  streamReconciliation_yields_parsed _ _ rfl (by decide)

/-! ### A trailing undelimited fragment produces nothing -/

/-- Invariant of reachable UTF-8 decoder states: a pending sequence always
accumulates to at least `0x80`, so completing it cannot emit a code point
below `0x80` (in particular not the delimiter `\n`). -/
def utf8StateOK (s : Utf8State) : Prop :=
  (s.needed = 1 → 2 ≤ s.codepoint) ∧ (2 ≤ s.needed → 1 ≤ s.codepoint ∨ 0x90 ≤ s.lower)

/-- The initial state satisfies the invariant. -/
theorem utf8Init_OK : utf8StateOK utf8Init := by
  unfold utf8StateOK
  decide

/-- A lead-byte step preserves the invariant, and emits only the input
byte itself or code points at or above `0x80`. -/
theorem utf8StepInit_props (b : Nat) :
    utf8StateOK (utf8StepInit b).2 ∧ ∀ c ∈ (utf8StepInit b).1, c = b ∨ 0x80 ≤ c := by
  by_cases h1 : b ≤ 0x7F
  · rw [utf8StepInit_ascii b h1]
    exact ⟨utf8Init_OK, by simp⟩
  · by_cases h2 : b ≤ 0xC1
    · have hstep : utf8StepInit b = ([0xFFFD], utf8Init) := by
        rw [utf8StepInit, if_neg h1, if_pos h2]
      rw [hstep]
      refine ⟨utf8Init_OK, ?_⟩
      intro c hc
      simp only [List.mem_singleton] at hc
      subst hc
      right
      omega
    · by_cases h3 : b ≤ 0xDF
      · rw [utf8StepInit_lead2 b (by omega) h3]
        refine ⟨⟨fun _ => ?_, fun h => ?_⟩, by simp⟩
        · show 2 ≤ b - 0xC0
          omega
        · have h' : (2 : Nat) ≤ 1 := h
          omega
      · by_cases h4 : b ≤ 0xEF
        · rw [utf8StepInit_lead3 b (by omega) h4]
          refine ⟨⟨fun h => ?_, fun _ => ?_⟩, by simp⟩
          · have h' : (2 : Nat) = 1 := h
            omega
          · show 1 ≤ b - 0xE0 ∨ 0x90 ≤ if b = 0xE0 then 0xA0 else 0x80
            by_cases he : b = 0xE0
            · rw [if_pos he]
              omega
            · rw [if_neg he]
              omega
        · by_cases h5 : b ≤ 0xF4
          · rw [utf8StepInit_lead4 b (by omega) h5]
            refine ⟨⟨fun h => ?_, fun _ => ?_⟩, by simp⟩
            · have h' : (3 : Nat) = 1 := h
              omega
            · show 1 ≤ b - 0xF0 ∨ 0x90 ≤ if b = 0xF0 then 0x90 else 0x80
              by_cases hf : b = 0xF0
              · rw [if_pos hf]
                omega
              · rw [if_neg hf]
                omega
          · have hstep : utf8StepInit b = ([0xFFFD], utf8Init) := by
              rw [utf8StepInit, if_neg h1, if_neg h2, if_neg h3, if_neg h4, if_neg h5]
            rw [hstep]
            refine ⟨utf8Init_OK, ?_⟩
            intro c hc
            simp only [List.mem_singleton] at hc
            subst hc
            right
            omega

set_option maxRecDepth 4000 in
/-- Any decoder step from an invariant state preserves the invariant, and
emits only the input byte itself or code points at or above `0x80`. -/
theorem utf8Step_props (s : Utf8State) (b : Nat) (hs : utf8StateOK s) :
    utf8StateOK (utf8Step s b).2 ∧ ∀ c ∈ (utf8Step s b).1, c = b ∨ 0x80 ≤ c := by
  obtain ⟨hs1, hs2⟩ := hs
  simp only [utf8Step]
  split_ifs with h1 h2 h3
  · exact utf8StepInit_props b
  · refine ⟨utf8Init_OK, ?_⟩
    intro c hc
    simp only [List.mem_singleton] at hc
    subst hc
    right
    have := hs1 h3
    omega
  · refine ⟨⟨fun h => ?_, fun h => ?_⟩, by simp⟩
    · have h' : s.needed - 1 = 1 := h
      have h2' := hs2 (by omega)
      show 2 ≤ s.codepoint * 64 + (b - 0x80)
      rcases h2' with hcp | hlo <;> omega
    · have h' : 2 ≤ s.needed - 1 := h
      have h2' := hs2 (by omega)
      show 1 ≤ s.codepoint * 64 + (b - 0x80) ∨ 0x90 ≤ 0x80
      rcases h2' with hcp | hlo <;> omega
  · have hp := utf8StepInit_props b
    refine ⟨hp.1, ?_⟩
    intro c hc
    rcases List.mem_cons.mp hc with rfl | hc
    · right
      omega
    · exact hp.2 c hc

/-- The `TextDecoder` wrapper preserves the invariant and only filters the
emitted code points. -/
theorem decoderStep_props (s : DecoderState) (b : Nat) (hs : utf8StateOK s.utf8) :
    utf8StateOK (decoderStep s b).2.utf8 ∧ ∀ c ∈ (decoderStep s b).1, c = b ∨ 0x80 ≤ c := by
  have hp := utf8Step_props s.utf8 b hs
  cases hf : s.firstDone
  · cases hout : (utf8Step s.utf8 b).1 with
    | nil =>
      have hd : decoderStep s b = ([], ⟨(utf8Step s.utf8 b).2, false⟩) := by
        simp [decoderStep, hf, hout]
      rw [hd]
      exact ⟨hp.1, by simp⟩
    | cons c rest =>
      by_cases hbom : c = 0xFEFF
      · have hd : decoderStep s b = (rest, ⟨(utf8Step s.utf8 b).2, true⟩) := by
          simp [decoderStep, hf, hout, hbom]
        rw [hd]
        refine ⟨hp.1, ?_⟩
        intro c' hc'
        exact hp.2 c' (by rw [hout]; exact List.mem_cons_of_mem c hc')
      · have hd : decoderStep s b = (c :: rest, ⟨(utf8Step s.utf8 b).2, true⟩) := by
          simp [decoderStep, hf, hout, hbom]
        rw [hd]
        refine ⟨hp.1, ?_⟩
        intro c' hc'
        exact hp.2 c' (by rw [hout]; exact hc')
  · have hd : decoderStep s b = ((utf8Step s.utf8 b).1, ⟨(utf8Step s.utf8 b).2, true⟩) := by
      simp [decoderStep, hf]
    rw [hd]
    exact ⟨hp.1, hp.2⟩

/-- Chunk decoding preserves the invariant; every emitted code point is
either one of the chunk's bytes or at least `0x80`. -/
theorem decodeChunk_props : ∀ (bs : List Nat) (s : DecoderState), utf8StateOK s.utf8 →
    utf8StateOK (decodeChunk s bs).2.utf8 ∧ ∀ c ∈ (decodeChunk s bs).1, c ∈ bs ∨ 0x80 ≤ c
  | [], s, hs => ⟨hs, by simp [decodeChunk]⟩
  | b :: bs, s, hs => by
    have h1 := decoderStep_props s b hs
    have h2 := decodeChunk_props bs (decoderStep s b).2 h1.1
    refine ⟨h2.1, ?_⟩
    intro c hc
    rcases List.mem_append.mp hc with hc | hc
    · rcases h1.2 c hc with rfl | hge
      · exact Or.inl (List.mem_cons_self c bs)
      · exact Or.inr hge
    · rcases h2.2 c hc with hin | hge
      · exact Or.inl (List.mem_cons_of_mem b hin)
      · exact Or.inr hge

/-- The loop preserves the decoder invariant. -/
theorem processChunkR_dec_OK (st : LoopState) (chunk : List Nat)
    (h : utf8StateOK st.dec.utf8) : utf8StateOK (processChunkR st chunk).1.dec.utf8 := by
  cases hf : st.finished
  · rw [processChunkR_eq st chunk hf]
    exact (decodeChunk_props chunk st.dec h).1
  · simpa [processChunkR, hf] using h

/-- A chunk containing no `\n` byte, fed to a live loop whose buffer holds
no `\n`, produces no events. -/
theorem processChunkR_silent (st : LoopState) (frag : List Nat)
    (hok : utf8StateOK st.dec.utf8) (hb : ∀ c ∈ st.buffer, c ≠ 10) (hfrag : 10 ∉ frag) :
    (processChunkR st frag).2 = [] := by
  cases hf : st.finished
  · rw [processChunkR_eq st frag hf]
    have hchars : ∀ c ∈ st.buffer ++ (decodeChunk st.dec frag).1, c ≠ 10 := by
      intro c hc
      rcases List.mem_append.mp hc with hc | hc
      · exact hb c hc
      · rcases (decodeChunk_props frag st.dec hok).2 c hc with hin | hge
        · intro he
          subst he
          exact hfrag hin
        · omega
    have : splitRun [] [] (st.buffer ++ (decodeChunk st.dec frag).1)
        = ([], st.buffer ++ (decodeChunk st.dec frag).1) := by
      simpa using splitRun_chew _ hchars [] [] []
    rw [this]
    simp [dispatchLinesR]
  · simp [processChunkR, hf]

/-- C4: a trailing fragment not terminated by a `\n` delimiter when the
body ends is discarded: appending it to a response body leaves the emitted
event sequence unchanged, so it never produces an event. -/
theorem streamReconciliation_drops_trailing (body frag : List Nat) (hfrag : 10 ∉ frag) :
    streamReconciliation [body ++ frag] = streamReconciliation [body] := by
  unfold streamReconciliation
  simp only [runStreamR, List.append_nil]
  rw [processChunkR_append loopInit body frag]
  rw [processChunkR_silent _ frag
    (processChunkR_dec_OK loopInit body (by exact utf8Init_OK))
    (processChunkR_buffer_noNl loopInit body (by simp [loopInit]))
    hfrag]
  simp

/-- Witness for C4: a body with one complete thought line plus a truncated
trailing line yields the same events as the complete line alone. -/
theorem streamReconciliation_drops_trailing_witness :
    streamReconciliation [utf8Encode (cps "data: \x7b\"type\":\"thought\",\"data\":\"y\"\x7d\n")
        ++ utf8Encode (cps "data: \x7b\"type\":\"thou")]
      = streamReconciliation [utf8Encode (cps "data: \x7b\"type\":\"thought\",\"data\":\"y\"\x7d\n")] :=
  streamReconciliation_drops_trailing _ _ (by decide)

/-! ### Session controller and `/ask` timeout claims -/

/-- A concrete summary record used as a counterexample input. -/
def summaryA : ReconciliationSummary :=
  ⟨"sess-1", "a.csv", 100, 90, 10, ⟨100, 90, 10, 0, true, "PASS"⟩⟩

/-- Counterexample to C5 as stated: from the Offline state
(`backendOnline = false`), `setSessionData` with a non-null summary leaves
`backendOnline` false — it does not move the controller to Online. -/
theorem setSessionData_offline_counterexample :
    (setSessionData ⟨false, none, false⟩ (some summaryA)).backendOnline = false := rfl

/-- C5 (amended): for every prior state, `setSessionData` with a non-null
summary sets `hasSession` to true and stores the data as the cached
dataset, but leaves `backendOnline` unchanged — in particular a controller
in Offline does not become Online. -/
theorem setSessionData_adopts (s : SessionState) (d : ReconciliationSummary) :
    setSessionData s (some d)
      = { hasSession := true, sessionData := some d, backendOnline := s.backendOnline } := by
  simp [setSessionData]

/-- C6: a refresh whose probe throws (rejected fetch) or returns a
non-success status moves the controller to Offline: `backendOnline` and
`hasSession` both become false, so no cached dataset is flagged as active
for gating purposes. -/
theorem refreshSession_failure_offline (s : SessionState) (h : HealthResponse) :
    ((refreshSession s (checkHealth none)).backendOnline = false
        ∧ (refreshSession s (checkHealth none)).hasSession = false)
      ∧ ((refreshSession s (checkHealth (some (false, h)))).backendOnline = false
        ∧ (refreshSession s (checkHealth (some (false, h)))).hasSession = false) := by
  refine ⟨⟨?_, ?_⟩, ⟨?_, ?_⟩⟩ <;> simp [refreshSession, checkHealth]

/-- C7: a refresh receiving a successful probe response with
`has_session = false` moves the controller to Online-without-session and
clears the cached dataset, whatever the prior state was. -/
theorem refreshSession_ok_no_session (s : SessionState) (status : String)
    (fn : Option String) :
    refreshSession s (checkHealth (some (true, ⟨status, false, fn⟩)))
      = { hasSession := false, sessionData := none, backendOnline := true } := by
  simp [refreshSession, checkHealth]

/-- Counterexample to C8 as stated: not every `/ask` request carries the
25-second timeout — the chat path's `askQuestion` fetch passes no abort
signal. -/
theorem ask_timeout_counterexample :
    ¬ (∀ c ∈ askEndpointRequests, c.timeoutMs = some 25000) := by
  intro h
  have := h askQuestionRequest (List.mem_cons_self _ _)
  simp [askQuestionRequest] at this

/-- C8 (amended): the 25-second client-side timeout applies to the insight
card's `/ask` request only; the chat path's `askQuestion` `/ask` request
has no client-side timeout. -/
theorem ask_timeout_insight_only :
    insightAskRequest.timeoutMs = some 25000 ∧ askQuestionRequest.timeoutMs = none :=
  ⟨rfl, rfl⟩
